import Mathlib

/-!
Shallow embedding of the hardmax kernel construction in
`python/tvm/topi/tensor.py` (`hardmax` / `_hardmax`), together with proofs
about the statement tree it builds and about the result of executing that
tree.

Scalar values are modelled as rationals extended with a bottom element `⊥`
standing for `-float("inf")`; the statement tree is a small deep-embedded
IR mirroring exactly the `tir.ir_builder` constructs the source uses.
-/

/-- Scalar values held in buffers and in the float scratch cell:
rationals with `⊥` playing the role of negative infinity. -/
abbrev V : Type := WithBot ℚ

/-- Element-type tags (dtype strings in the source). -/
inductive DType where
  | float16 : DType
  | float32 : DType
  | float64 : DType
  | int32 : DType
  | int64 : DType
  | uint8 : DType
  deriving DecidableEq

/-- A scratch allocation made by `ib.allocate(dtype, (extent,))`:
its element type and extent (the name and the `local` scope of the two
allocations are constants in the source and are not tracked). -/
structure Alloc where
  dtype : DType
  extent : Nat
  deriving DecidableEq

/-- The only failure the construction can actually hit: a Python
`IndexError` raised by the tuple access `shape[axis]`. -/
inductive BuildError where
  | indexOutOfRange : BuildError
  deriving DecidableEq

/-- Index expressions of the embedded IR.  Loop induction variables are
de Bruijn indexed: `var 0` is the innermost enclosing loop variable.
`loadI` reads the int scratch cell `temp1[0]`. -/
inductive IExpr where
  | var : Nat → IExpr
  | lit : Nat → IExpr
  | add : IExpr → IExpr → IExpr
  | mul : IExpr → IExpr → IExpr
  | loadI : IExpr
  deriving DecidableEq

/-- Value expressions: literals, the float scratch `temp[0]` (`loadF`),
and flat-offset buffer loads (buffer `0` is the input, `1` the output). -/
inductive VExpr where
  | lit : V → VExpr
  | loadF : VExpr
  | loadBuf : Nat → IExpr → VExpr
  deriving DecidableEq

/-- Statements of the embedded IR: the `ir_builder` constructs used by
`_hardmax` (sequencing, `for_range`, `if_scope` on a `>` comparison,
buffer stores and scratch stores). -/
inductive Stmt where
  | skip : Stmt
  | seq : Stmt → Stmt → Stmt
  | forRange : Nat → Stmt → Stmt
  | ifGt : VExpr → VExpr → Stmt → Stmt
  | storeBuf : Nat → IExpr → VExpr → Stmt
  | storeF : VExpr → Stmt
  | storeI : IExpr → Stmt
  deriving DecidableEq

/-- Execution state: the two tensor buffers as flat-offset functions and
the two single-element scratch cells. -/
@[ext]
structure EState where
  inp : Nat → V
  out : Nat → V
  tempF : V
  tempI : Nat

/-- Evaluate an index expression in environment `env` (innermost loop
variable first). -/
def evalI : IExpr → List Nat → EState → Nat
  | .var k, env, _ => env.getD k 0
  | .lit n, _, _ => n
  | .add a b, env, st => evalI a env st + evalI b env st
  | .mul a b, env, st => evalI a env st * evalI b env st
  | .loadI, _, st => st.tempI

/-- Evaluate a value expression. -/
def evalV : VExpr → List Nat → EState → V
  | .lit v, _, _ => v
  | .loadF, _, st => st.tempF
  | .loadBuf b i, env, st =>
      if b = 0 then st.inp (evalI i env st) else st.out (evalI i env st)

/-- Execute a statement.  A `forRange n body` runs `body` for the loop
variable `0, 1, …, n-1`, pushing its value onto the environment. -/
def execStmt : Stmt → List Nat → EState → EState
  | .skip, _, st => st
  | .seq s1 s2, env, st => execStmt s2 env (execStmt s1 env st)
  | .forRange n body, env, st =>
      (List.range n).foldl (fun acc v => execStmt body (v :: env) acc) st
  | .ifGt a b body, env, st =>
      if evalV b env st < evalV a env st then execStmt body env st else st
  | .storeBuf bid i v, env, st =>
      if bid = 0 then { st with inp := Function.update st.inp (evalI i env st) (evalV v env st) }
      else { st with out := Function.update st.out (evalI i env st) (evalV v env st) }
  | .storeF v, env, st => { st with tempF := evalV v env st }
  | .storeI e, env, st => { st with tempI := evalI e env st }

/-- Left-fold product of a shape, as `topi.utils.prod`. -/
def prodl (s : List Nat) : Nat := s.foldl (· * ·) 1

/-- Python tuple indexing `s[i]`: negative indices count from the end,
`none` models the `IndexError` raised outside `[-len s, len s)`. -/
def pyIndex (s : List Nat) (i : Int) : Option Nat :=
  if 0 ≤ i then
    if i < (s.length : Int) then some (s.getD i.toNat 0) else none
  else
    if -(s.length : Int) ≤ i then some (s.getD (i + (s.length : Int)).toNat 0) else none

/-- `outer_size`, computed as in the source:
`for i, d in enumerate(shape): if i < axis: outer_size *= d`. -/
def outerSizeCalc (s : List Nat) (ax : Int) : Nat :=
  s.enum.foldl (fun acc p => if (p.1 : Int) < ax then acc * p.2 else acc) 1

/-- `inner_size`, computed as in the source:
`for i, d in enumerate(shape): if i > axis: inner_size *= d`. -/
def innerSizeCalc (s : List Nat) (ax : Int) : Nat :=
  s.enum.foldl (fun acc p => if ax < (p.1 : Int) then acc * p.2 else acc) 1

/-- The expression stored by `temp1[0] = i * inner_size * cnt + k`
(environment inside the `k` loop: `var 0 = k`, `var 1 = i`). -/
def initExprK (inner cnt : Nat) : IExpr :=
  .add (.mul (.mul (.var 1) (.lit inner)) (.lit cnt)) (.var 0)

/-- `index = i * inner_size * cnt + j * inner_size + k`
(environment inside the `j` loop: `var 0 = j`, `var 1 = k`, `var 2 = i`). -/
def idxExprJ (inner cnt : Nat) : IExpr :=
  .add (.add (.mul (.mul (.var 2) (.lit inner)) (.lit cnt)) (.mul (.var 0) (.lit inner)))
    (.var 1)

/-- Body of the scan loop over `j`:
`with ib.if_scope(input_data[index] > temp[0]): temp1[0] = index; temp[0] = input_data[index]`. -/
def jBody (inner cnt : Nat) : Stmt :=
  .ifGt (.loadBuf 0 (idxExprJ inner cnt)) .loadF
    (.seq (.storeI (idxExprJ inner cnt)) (.storeF (.loadBuf 0 (idxExprJ inner cnt))))

/-- Body of the loop over `k`: initialize `temp[0] = -inf`,
`temp1[0] = i * inner_size * cnt + k`, scan `j`, then `out[temp1[0]] = 1.0`. -/
def kBody (inner cnt : Nat) : Stmt :=
  .seq (.storeF (.lit ⊥))
    (.seq (.storeI (initExprK inner cnt))
      (.seq (.forRange cnt (jBody inner cnt))
        (.storeBuf 1 .loadI (.lit 1))))

/-- The scan-and-mark statement: `for i0 in range(outer_size): for k in
range(inner_size): …`. -/
def scanStmt (outer inner cnt : Nat) : Stmt :=
  .forRange outer (.forRange inner (kBody inner cnt))

/-- The zero-fill statement: `with ib.for_range(0, out_size) as i: out[i] = 0.0`. -/
def zeroFill (n : Nat) : Stmt :=
  .forRange n (.storeBuf 1 (.var 0) (.lit 0))

/-- Result of running `_hardmax`: the element types of the two buffer
views (input, output — `te.extern` gives the output the input's dtype),
the scratch allocations, the top-level statements emitted in order, and
the error that aborted construction, if any. -/
structure BuildResult where
  bufDtypes : List DType
  allocs : List Alloc
  stmts : List Stmt
  err : Option BuildError
  deriving DecidableEq

/-- Shallow embedding of `_hardmax` (tensor.py lines 94-134): allocate the
scratch cells, normalize the axis (only the literal `-1` is rewritten to
`len(shape) - 1`), emit the zero-fill loop, compute `outer_size` and
`inner_size`, read `cnt = shape[axis]` (which can raise `IndexError`),
then emit the scan loop. -/
def hardmaxBuild (dtype : DType) (shape : List Nat) (axis : Int) : BuildResult :=
  let bufs := [dtype, dtype]
  let allocs : List Alloc := [⟨.float32, 1⟩, ⟨.int32, 1⟩]
  let ax : Int := if axis = -1 then (shape.length : Int) - 1 else axis
  let outSize := prodl shape
  let zf := zeroFill outSize
  let outer := outerSizeCalc shape ax
  let inner := innerSizeCalc shape ax
  match pyIndex shape ax with
  | none => ⟨bufs, allocs, [zf], some .indexOutOfRange⟩
  | some cnt => ⟨bufs, allocs, [zf, scanStmt outer inner cnt], none⟩

/-- Execute a statement list in order from an initial state. -/
def runStmts (l : List Stmt) (st : EState) : EState :=
  l.foldl (fun acc stmt => execStmt stmt [] acc) st

/-- Execute the statements built by `hardmax` on input `inp`, the output
buffer initially holding `out0`. -/
def hardmaxRunFrom (shape : List Nat) (axis : Int) (inp out0 : Nat → V) : Nat → V :=
  (runStmts (hardmaxBuild .float32 shape axis).stmts ⟨inp, out0, 0, 0⟩).out

/-- Execute on a zero-initialized output buffer. -/
def hardmaxRun (shape : List Nat) (axis : Int) (inp : Nat → V) : Nat → V :=
  hardmaxRunFrom shape axis inp fun _ => 0

/-- Product of the dimensions strictly before the axis. -/
def outerSize (s : List Nat) (a : Nat) : Nat := prodl (s.take a)

/-- Product of the dimensions strictly after the axis. -/
def innerSize (s : List Nat) (a : Nat) : Nat := prodl (s.drop (a + 1))

/-- Extent of the reduction axis. -/
def axisExtent (s : List Nat) (a : Nat) : Nat := s.getD a 0

/-- Row-major flat offset of the element with outer index `i`, axis
index `j`, inner index `k`. -/
def flatOff (inner cnt i j k : Nat) : Nat := i * inner * cnt + j * inner + k

/-- The index of the first maximum among `g 0, …, g (n-1)` (`0` when
`n = 0`), as a running-best fold. -/
def firstArgmax (g : Nat → V) (n : Nat) : Nat :=
  (List.range n).foldl (fun b j => if g b < g j then j else b) 0

/-- `m` is the lowest index attaining the maximum of `g` on `[0, n)`. -/
def isLowestMaxIdx (g : Nat → V) (n m : Nat) : Prop :=
  m < n ∧ (∀ j < n, g j ≤ g m) ∧ ∀ j < m, g j < g m

/-- The flat offset that receives the `1.0` in the axis group `(i, k)`. -/
def bestOff (inp : Nat → V) (inner cnt i k : Nat) : Nat :=
  flatOff inner cnt i (firstArgmax (fun j => inp (flatOff inner cnt i j k)) cnt) k

/-- Example input `[[1,5,3],[9,2,2]]` flattened. -/
def exInp : Nat → V := fun n => (([1, 5, 3, 9, 2, 2] : List ℚ).getD n 0 : ℚ)

/-! ### Shape-product and size lemmas -/

theorem prodl_eq_prod (s : List Nat) : prodl s = s.prod := (s.prod_eq_foldl).symm

theorem prodl_cons (d : Nat) (l : List Nat) : prodl (d :: l) = d * prodl l := by
  simp [prodl_eq_prod]

theorem prodl_pos (s : List Nat) (h : ∀ d ∈ s, 0 < d) : 0 < prodl s := by
  rw [prodl_eq_prod]; exact List.prod_pos h

theorem outer_foldl (s : List Nat) : ∀ (n : Nat) (ax : Int) (acc : Nat),
    (List.enumFrom n s).foldl (fun acc p => if (p.1 : Int) < ax then acc * p.2 else acc) acc
      = acc * prodl (s.take (ax - n).toNat) := by
  induction s with
  | nil => intro n ax acc; simp [prodl]
  | cons d rest ih =>
    intro n ax acc
    rw [List.enumFrom_cons]
    simp only [List.foldl_cons]
    rw [ih (n + 1) ax]
    by_cases h : (n : Int) < ax
    · rw [if_pos h]
      have h1 : (ax - (n : Int)).toNat = (ax - ((n + 1 : Nat) : Int)).toNat + 1 := by
        push_cast; omega
      rw [h1, List.take_succ_cons, prodl_cons, mul_assoc]
    · rw [if_neg h]
      have h1 : (ax - (n : Int)).toNat = 0 := by omega
      have h2 : (ax - ((n + 1 : Nat) : Int)).toNat = 0 := by push_cast; omega
      rw [h1, h2]
      simp

theorem inner_foldl (s : List Nat) : ∀ (n : Nat) (ax : Int) (acc : Nat),
    (List.enumFrom n s).foldl (fun acc p => if ax < (p.1 : Int) then acc * p.2 else acc) acc
      = acc * prodl (s.drop (ax + 1 - n).toNat) := by
  induction s with
  | nil => intro n ax acc; simp [prodl]
  | cons d rest ih =>
    intro n ax acc
    rw [List.enumFrom_cons]
    simp only [List.foldl_cons]
    rw [ih (n + 1) ax]
    by_cases h : ax < (n : Int)
    · rw [if_pos h]
      have h1 : (ax + 1 - ((n + 1 : Nat) : Int)).toNat = 0 := by push_cast; omega
      have h2 : (ax + 1 - (n : Int)).toNat = 0 := by omega
      rw [h1, h2]
      simp [prodl_cons, mul_assoc]
    · rw [if_neg h]
      have h1 : (ax + 1 - (n : Int)).toNat = (ax + 1 - ((n + 1 : Nat) : Int)).toNat + 1 := by
        push_cast; omega
      rw [h1, List.drop_succ_cons]

theorem outerSizeCalc_eq (s : List Nat) (a : Nat) :
    outerSizeCalc s (a : Int) = outerSize s a := by
  have h := outer_foldl s 0 (a : Int) 1
  have h0 : ((a : Int) - (0 : Nat)).toNat = a := by push_cast; omega
  rw [h0] at h
  simpa [outerSizeCalc, outerSize, List.enum] using h

theorem innerSizeCalc_eq (s : List Nat) (a : Nat) :
    innerSizeCalc s (a : Int) = innerSize s a := by
  have h := inner_foldl s 0 (a : Int) 1
  have h0 : ((a : Int) + 1 - (0 : Nat)).toNat = a + 1 := by push_cast; omega
  rw [h0] at h
  simpa [innerSizeCalc, innerSize, List.enum] using h

theorem pyIndex_natCast (s : List Nat) (a : Nat) (ha : a < s.length) :
    pyIndex s (a : Int) = some (s.getD a 0) := by
  have h1 : (0 : Int) ≤ (a : Int) := by omega
  have h2 : (a : Int) < (s.length : Int) := by omega
  have h3 : ((a : Int)).toNat = a := by omega
  simp [pyIndex, h1, h2, h3]

/-- For a valid non-negative axis, `_hardmax` succeeds and emits exactly
the zero-fill statement followed by the scan statement, with the loop
extents given by the products of the dimensions before/after the axis. -/
theorem hardmaxBuild_valid (dtype : DType) (s : List Nat) (a : Nat) (ha : a < s.length) :
    hardmaxBuild dtype s (a : Int) =
      ⟨[dtype, dtype], [⟨.float32, 1⟩, ⟨.int32, 1⟩],
        [zeroFill (prodl s), scanStmt (outerSize s a) (innerSize s a) (axisExtent s a)],
        none⟩ := by
  have hne : ¬ ((a : Int) = -1) := by omega
  simp only [hardmaxBuild, if_neg hne, pyIndex_natCast s a ha,
    outerSizeCalc_eq, innerSizeCalc_eq, axisExtent]

theorem prodl_append (l1 l2 : List Nat) : prodl (l1 ++ l2) = prodl l1 * prodl l2 := by
  simp [prodl_eq_prod]

theorem axisExtent_eq_getElem (s : List Nat) (a : Nat) (ha : a < s.length) :
    axisExtent s a = s[a] := List.getD_eq_getElem s 0 ha

/-- The total element count factors through the axis decomposition. -/
theorem total_eq (s : List Nat) (a : Nat) (ha : a < s.length) :
    prodl s = outerSize s a * (axisExtent s a * innerSize s a) := by
  conv_lhs => rw [← List.take_append_drop a s]
  rw [prodl_append, List.drop_eq_getElem_cons ha, prodl_cons,
    axisExtent_eq_getElem s a ha]
  simp [outerSize, innerSize]

/-! ### Flat-offset arithmetic -/

theorem flatOff_lt (inner cnt i j k outer : Nat)
    (hi : i < outer) (hj : j < cnt) (hk : k < inner) :
    flatOff inner cnt i j k < outer * (cnt * inner) := by
  have h1 : j * inner + k < cnt * inner := by
    calc j * inner + k < j * inner + inner := by omega
    _ = (j + 1) * inner := by ring
    _ ≤ cnt * inner := Nat.mul_le_mul_right inner hj
  calc flatOff inner cnt i j k = i * (cnt * inner) + (j * inner + k) := by
        unfold flatOff; ring
  _ < i * (cnt * inner) + cnt * inner := by omega
  _ = (i + 1) * (cnt * inner) := by ring
  _ ≤ outer * (cnt * inner) := Nat.mul_le_mul_right _ hi

theorem flatOff_inj (inner cnt : Nat) (hinn : 0 < inner)
    (i j k i' j' k' : Nat) (hj : j < cnt) (hk : k < inner) (hj' : j' < cnt) (hk' : k' < inner)
    (h : flatOff inner cnt i j k = flatOff inner cnt i' j' k') :
    i = i' ∧ j = j' ∧ k = k' := by
  have hcnt : 0 < cnt := by omega
  have e : ∀ x y z, flatOff inner cnt x y z = (x * cnt + y) * inner + z := by
    intro x y z; unfold flatOff; ring
  rw [e, e] at h
  have hdiv : ∀ q r, r < inner → (q * inner + r) / inner = q := by
    intro q r hr
    rw [mul_comm q inner, Nat.mul_add_div hinn, Nat.div_eq_of_lt hr, add_zero]
  have hmodI : ∀ q r, r < inner → (q * inner + r) % inner = r := by
    intro q r hr
    rw [mul_comm q inner, Nat.mul_add_mod, Nat.mod_eq_of_lt hr]
  have hmodC : ∀ q r, r < cnt → (q * cnt + r) % cnt = r := by
    intro q r hr
    rw [mul_comm q cnt, Nat.mul_add_mod, Nat.mod_eq_of_lt hr]
  have h1 : k = k' := by
    have := congrArg (· % inner) h
    simpa [hmodI _ _ hk, hmodI _ _ hk'] using this
  have h2 : i * cnt + j = i' * cnt + j' := by
    have := congrArg (· / inner) h
    simpa [hdiv _ _ hk, hdiv _ _ hk'] using this
  have h3 : j = j' := by
    have := congrArg (· % cnt) h2
    simpa [hmodC _ _ hj, hmodC _ _ hj'] using this
  refine ⟨?_, h3, h1⟩
  have h4 : i * cnt = i' * cnt := by omega
  exact Nat.eq_of_mul_eq_mul_right hcnt h4

theorem flatOff_surj (inner cnt outer : Nat) (hinn : 0 < inner) (hcnt : 0 < cnt)
    (off : Nat) (hoff : off < outer * (cnt * inner)) :
    ∃ i j k, i < outer ∧ j < cnt ∧ k < inner ∧ off = flatOff inner cnt i j k := by
  have hbase : 0 < cnt * inner := Nat.mul_pos hcnt hinn
  refine ⟨off / (cnt * inner), (off % (cnt * inner)) / inner, (off % (cnt * inner)) % inner,
    ?_, ?_, ?_, ?_⟩
  · exact (Nat.div_lt_iff_lt_mul hbase).mpr hoff
  · exact (Nat.div_lt_iff_lt_mul hinn).mpr (Nat.mod_lt off hbase)
  · exact Nat.mod_lt _ hinn
  · have e2 : inner * ((off % (cnt * inner)) / inner) + (off % (cnt * inner)) % inner
        = off % (cnt * inner) := Nat.div_add_mod _ inner
    calc off = (cnt * inner) * (off / (cnt * inner)) + off % (cnt * inner) :=
        (Nat.div_add_mod off (cnt * inner)).symm
    _ = (cnt * inner) * (off / (cnt * inner)) +
          (inner * ((off % (cnt * inner)) / inner) + (off % (cnt * inner)) % inner) := by
        rw [e2]
    _ = flatOff inner cnt (off / (cnt * inner)) ((off % (cnt * inner)) / inner)
          ((off % (cnt * inner)) % inner) := by unfold flatOff; ring

/-! ### The running-best fold -/

theorem firstArgmax_zero (g : Nat → V) : firstArgmax g 0 = 0 := rfl

theorem firstArgmax_succ (g : Nat → V) (n : Nat) :
    firstArgmax g (n + 1) = if g (firstArgmax g n) < g n then n else firstArgmax g n := by
  unfold firstArgmax
  rw [List.range_succ, List.foldl_append]
  rfl

theorem firstArgmax_lt (g : Nat → V) (n : Nat) (hn : 0 < n) : firstArgmax g n < n := by
  induction n with
  | zero => omega
  | succ m ih =>
    rw [firstArgmax_succ]
    by_cases h : g (firstArgmax g m) < g m
    · rw [if_pos h]; omega
    · rw [if_neg h]
      rcases Nat.eq_zero_or_pos m with hm | hm
      · subst hm; simp [firstArgmax_zero]
      · exact Nat.lt_succ_of_lt (ih hm)

theorem firstArgmax_le_max (g : Nat → V) (n : Nat) : ∀ j < n, g j ≤ g (firstArgmax g n) := by
  induction n with
  | zero => intro j hj; omega
  | succ m ih =>
    intro j hj
    rw [firstArgmax_succ]
    by_cases h : g (firstArgmax g m) < g m
    · rw [if_pos h]
      rcases Nat.lt_succ_iff_lt_or_eq.mp hj with hj' | hj'
      · exact le_trans (ih j hj') (le_of_lt h)
      · subst hj'; exact le_refl _
    · rw [if_neg h]
      rcases Nat.lt_succ_iff_lt_or_eq.mp hj with hj' | hj'
      · exact ih j hj'
      · subst hj'; exact le_of_not_lt h

theorem firstArgmax_first (g : Nat → V) (n : Nat) :
    ∀ j < firstArgmax g n, g j < g (firstArgmax g n) := by
  induction n with
  | zero => intro j hj; rw [firstArgmax_zero] at hj; omega
  | succ m ih =>
    rw [firstArgmax_succ]
    by_cases h : g (firstArgmax g m) < g m
    · rw [if_pos h]
      intro j hj
      exact lt_of_le_of_lt (firstArgmax_le_max g m j hj) h
    · rw [if_neg h]
      exact ih

/-- The running-best fold lands on the lowest index attaining the maximum. -/
theorem firstArgmax_isLowestMaxIdx (g : Nat → V) (n : Nat) (hn : 0 < n) :
    isLowestMaxIdx g n (firstArgmax g n) :=
  ⟨firstArgmax_lt g n hn, firstArgmax_le_max g n, firstArgmax_first g n⟩

theorem isLowestMaxIdx_unique (g : Nat → V) (n m m' : Nat)
    (h : isLowestMaxIdx g n m) (h' : isLowestMaxIdx g n m') : m = m' := by
  by_contra hne
  rcases Nat.lt_or_ge m m' with hlt | hge
  · exact absurd (h.2.1 m' h'.1) (not_le_of_lt (h'.2.2 m hlt))
  · have hlt : m' < m := by omega
    exact absurd (h'.2.1 m h.1) (not_le_of_lt (h.2.2 m' hlt))

/-! ### Execution of the built statements -/

theorem zeroFill_fold (st : EState) : ∀ m,
    (List.range m).foldl
        (fun acc v => execStmt (.storeBuf 1 (.var 0) (.lit 0)) (v :: []) acc) st
      = { st with out := fun off => if off < m then 0 else st.out off } := by
  intro m
  induction m with
  | zero =>
    simp only [List.range_zero, List.foldl_nil]
    have h : (fun off => if off < 0 then (0 : V) else st.out off) = st.out := by
      funext off; simp
    rw [h]
  | succ p ih =>
    rw [List.range_succ, List.foldl_append, ih]
    simp only [List.foldl_cons, List.foldl_nil, execStmt, evalI, evalV]
    have h : Function.update (fun off => if off < p then (0 : V) else st.out off) p 0
        = fun off => if off < p + 1 then (0 : V) else st.out off := by
      funext off
      rcases eq_or_ne off p with rfl | hne
      · rw [Function.update_same, if_pos (Nat.lt_succ_self off)]
      · rw [Function.update_noteq hne]
        by_cases hlt : off < p
        · rw [if_pos hlt, if_pos (by omega)]
        · rw [if_neg hlt, if_neg (by omega : ¬ off < p + 1)]
    simp only [List.getD_cons_zero]
    rw [if_neg (by omega : ¬ (1 = 0))]
    simp only [h]

theorem exec_zeroFill (n : Nat) (st : EState) :
    execStmt (zeroFill n) [] st =
      { st with out := fun off => if off < n then 0 else st.out off } := by
  simp only [zeroFill, execStmt]
  exact zeroFill_fold st n

theorem exec_jBody (inner cnt i j k : Nat) (st : EState) :
    execStmt (jBody inner cnt) [j, k, i] st =
      if st.tempF < st.inp (flatOff inner cnt i j k)
      then { st with tempF := st.inp (flatOff inner cnt i j k),
                     tempI := flatOff inner cnt i j k }
      else st := by
  simp only [jBody, idxExprJ, execStmt, evalV, evalI, flatOff,
    List.getD_cons_succ, List.getD_cons_zero, if_pos rfl, if_true, eq_self_iff_true]

/-- One axis-group scan: starting from `temp = -inf`,
`temp1 = offset of j = 0`, after `m` iterations the scratch cells hold the
offset and value of the first maximum among the first `m` elements. -/
theorem exec_jloop (inner cnt i k : Nat) (st0 : EState)
    (hF : st0.tempF = ⊥) (hI : st0.tempI = flatOff inner cnt i 0 k) :
    ∀ m, (List.range m).foldl
        (fun acc v => execStmt (jBody inner cnt) (v :: [k, i]) acc) st0 =
      if m = 0 then st0 else
        { st0 with
          tempI := flatOff inner cnt i
            (firstArgmax (fun j => st0.inp (flatOff inner cnt i j k)) m) k,
          tempF := st0.inp (flatOff inner cnt i
            (firstArgmax (fun j => st0.inp (flatOff inner cnt i j k)) m) k) } := by
  intro m
  induction m with
  | zero => simp
  | succ p ih =>
    rw [List.range_succ, List.foldl_append, ih]
    simp only [List.foldl_cons, List.foldl_nil]
    rw [if_neg (by omega : ¬ (p + 1 = 0))]
    rcases Nat.eq_zero_or_pos p with hp | hp
    · subst hp
      rw [if_pos rfl, exec_jBody]
      have hfa : firstArgmax (fun j => st0.inp (flatOff inner cnt i j k)) 1 = 0 := by
        rw [firstArgmax_succ, firstArgmax_zero, ite_self]
      rw [hF, hfa]
      by_cases hbot : (⊥ : V) < st0.inp (flatOff inner cnt i 0 k)
      · rw [if_pos hbot]
      · rw [if_neg hbot]
        have hb : st0.inp (flatOff inner cnt i 0 k) = ⊥ :=
          le_bot_iff.mp (not_lt.mp hbot)
        ext <;> simp [hF, hI, hb]
    · rw [if_neg (by omega : ¬ (p = 0)), exec_jBody]
      rw [firstArgmax_succ]
      by_cases hlt : st0.inp (flatOff inner cnt i
            (firstArgmax (fun j => st0.inp (flatOff inner cnt i j k)) p) k)
          < st0.inp (flatOff inner cnt i p k)
      · rw [if_pos hlt, if_pos hlt]
      · rw [if_neg hlt, if_neg hlt]

/-- Executing one `k`-loop body marks the first-maximum offset of the
group `(i, k)` with `1.0` and leaves everything else in the output
untouched. -/
theorem exec_kBody (inner cnt i k : Nat) (st : EState) :
    ∃ tf, execStmt (kBody inner cnt) [k, i] st =
      ⟨st.inp, Function.update st.out (bestOff st.inp inner cnt i k) 1, tf,
        bestOff st.inp inner cnt i k⟩ := by
  have h1 : execStmt (kBody inner cnt) [k, i] st =
      execStmt (.storeBuf 1 .loadI (.lit 1)) [k, i]
        ((List.range cnt).foldl
          (fun acc v => execStmt (jBody inner cnt) (v :: [k, i]) acc)
          ⟨st.inp, st.out, ⊥, i * inner * cnt + k⟩) := by
    simp only [kBody, execStmt, evalV, evalI, initExprK,
      List.getD_cons_succ, List.getD_cons_zero]
  rw [h1, exec_jloop inner cnt i k ⟨st.inp, st.out, ⊥, i * inner * cnt + k⟩ rfl
    (by simp [flatOff]) cnt]
  rcases Nat.eq_zero_or_pos cnt with hc | hc
  · subst hc
    rw [if_pos rfl]
    refine ⟨⊥, ?_⟩
    simp only [execStmt, evalI, evalV, if_neg (by omega : ¬ (1 = 0))]
    have hb : bestOff st.inp inner 0 i k = i * inner * 0 + k := by
      simp [bestOff, firstArgmax_zero, flatOff]
    rw [hb]
  · rw [if_neg (by omega : ¬ (cnt = 0))]
    refine ⟨st.inp (flatOff inner cnt i
      (firstArgmax (fun j => st.inp (flatOff inner cnt i j k)) cnt) k), ?_⟩
    simp only [execStmt, evalI, evalV, if_neg (by omega : ¬ (1 = 0))]
    have hb : bestOff st.inp inner cnt i k = flatOff inner cnt i
        (firstArgmax (fun j => st.inp (flatOff inner cnt i j k)) cnt) k := rfl
    rw [hb]

/-- After `m` iterations of the `k` loop at outer index `i`: every group
offset scanned so far holds `1.0`, everything else is unchanged. -/
theorem exec_kloop_aux (inner cnt i : Nat) (st : EState) : ∀ m,
    ∃ tf ti out2,
      (List.range m).foldl
          (fun acc v => execStmt (kBody inner cnt) (v :: [i]) acc) st
        = ⟨st.inp, out2, tf, ti⟩
      ∧ (∀ k < m, out2 (bestOff st.inp inner cnt i k) = 1)
      ∧ ∀ off, (∀ k < m, off ≠ bestOff st.inp inner cnt i k) → out2 off = st.out off := by
  intro m
  induction m with
  | zero =>
    exact ⟨st.tempF, st.tempI, st.out, rfl,
      fun k hk => absurd hk (Nat.not_lt_zero k), fun off _ => rfl⟩
  | succ p ih =>
    obtain ⟨tf, ti, out2, heq, h1, h2⟩ := ih
    rw [List.range_succ, List.foldl_append]
    simp only [List.foldl_cons, List.foldl_nil]
    rw [heq]
    obtain ⟨tf', hk⟩ := exec_kBody inner cnt i p ⟨st.inp, out2, tf, ti⟩
    rw [hk]
    refine ⟨tf', bestOff st.inp inner cnt i p,
      Function.update out2 (bestOff st.inp inner cnt i p) 1, rfl, ?_, ?_⟩
    · intro k hk'
      rcases eq_or_ne (bestOff st.inp inner cnt i k) (bestOff st.inp inner cnt i p) with he | hne
      · rw [he, Function.update_same]
      · rw [Function.update_noteq hne]
        have hkp : k < p := by
          rcases Nat.lt_succ_iff_lt_or_eq.mp hk' with h | h
          · exact h
          · exact absurd (h ▸ rfl) hne
        exact h1 k hkp
    · intro off hoff
      rw [Function.update_noteq (hoff p (Nat.lt_succ_self p))]
      exact h2 off (fun k hk' => hoff k (Nat.lt_succ_of_lt hk'))

/-- After `m` iterations of the outer `i` loop: every group offset of the
outer indices processed so far holds `1.0`, everything else unchanged. -/
theorem exec_iloop_aux (inner cnt : Nat) (st : EState) : ∀ m,
    ∃ tf ti out2,
      (List.range m).foldl
          (fun acc v => execStmt (.forRange inner (kBody inner cnt)) (v :: []) acc) st
        = ⟨st.inp, out2, tf, ti⟩
      ∧ (∀ i < m, ∀ k < inner, out2 (bestOff st.inp inner cnt i k) = 1)
      ∧ ∀ off, (∀ i < m, ∀ k < inner, off ≠ bestOff st.inp inner cnt i k) →
          out2 off = st.out off := by
  intro m
  induction m with
  | zero =>
    exact ⟨st.tempF, st.tempI, st.out, rfl,
      fun i hi => absurd hi (Nat.not_lt_zero i), fun off _ => rfl⟩
  | succ p ih =>
    obtain ⟨tf, ti, out2, heq, h1, h2⟩ := ih
    rw [List.range_succ, List.foldl_append]
    simp only [List.foldl_cons, List.foldl_nil]
    rw [heq]
    have hfor : execStmt (.forRange inner (kBody inner cnt)) (p :: [])
        ⟨st.inp, out2, tf, ti⟩ =
        (List.range inner).foldl
          (fun acc v => execStmt (kBody inner cnt) (v :: [p]) acc)
          ⟨st.inp, out2, tf, ti⟩ := by
      simp only [execStmt]
    obtain ⟨tf', ti', out3, heq', h1', h2'⟩ :=
      exec_kloop_aux inner cnt p (⟨st.inp, out2, tf, ti⟩ : EState) inner
    rw [hfor, heq']
    refine ⟨tf', ti', out3, rfl, ?_, ?_⟩
    · intro i hi k hk
      rcases Nat.lt_succ_iff_lt_or_eq.mp hi with hip | hip
      · by_cases hmem : ∃ k', k' < inner ∧
          bestOff st.inp inner cnt i k = bestOff st.inp inner cnt p k'
        · obtain ⟨k', hk', he⟩ := hmem
          rw [he]
          exact h1' k' hk'
        · push_neg at hmem
          rw [h2' _ (fun k' hk' => hmem k' hk')]
          exact h1 i hip k hk
      · subst hip
        exact h1' k hk
    · intro off hoff
      rw [h2' off (fun k' hk' => hoff p (Nat.lt_succ_self p) k' hk')]
      exact h2 off (fun i hi k hk => hoff i (Nat.lt_succ_of_lt hi) k hk)

/-- Executing the scan statement: every group's first-maximum offset is
set to `1.0`; all other output entries are unchanged. -/
theorem exec_scan (outer inner cnt : Nat) (st : EState) :
    ∃ tf ti out2,
      execStmt (scanStmt outer inner cnt) [] st = ⟨st.inp, out2, tf, ti⟩
      ∧ (∀ i < outer, ∀ k < inner, out2 (bestOff st.inp inner cnt i k) = 1)
      ∧ ∀ off, (∀ i < outer, ∀ k < inner, off ≠ bestOff st.inp inner cnt i k) →
          out2 off = st.out off := by
  have h : execStmt (scanStmt outer inner cnt) [] st =
      (List.range outer).foldl
        (fun acc v => execStmt (.forRange inner (kBody inner cnt)) (v :: []) acc) st := by
    simp only [scanStmt, execStmt]
  rw [h]
  exact exec_iloop_aux inner cnt st outer

/-- Full characterization of the executed kernel: inside the tensor, each
axis group is the one-hot vector of its first maximum; outside the tensor
the initial output contents survive. -/
theorem hardmaxRunFrom_char (s : List Nat) (a : Nat) (inp out0 : Nat → V)
    (ha : a < s.length) (hpos : ∀ d ∈ s, 0 < d) :
    (∀ i < outerSize s a, ∀ k < innerSize s a, ∀ j < axisExtent s a,
      hardmaxRunFrom s (a : Int) inp out0 (flatOff (innerSize s a) (axisExtent s a) i j k)
        = if j = firstArgmax
            (fun j' => inp (flatOff (innerSize s a) (axisExtent s a) i j' k))
            (axisExtent s a)
          then 1 else 0)
    ∧ ∀ off, prodl s ≤ off → hardmaxRunFrom s (a : Int) inp out0 off = out0 off := by
  have hcnt : 0 < axisExtent s a := by
    rw [axisExtent_eq_getElem s a ha]
    exact hpos _ (List.getElem_mem ha)
  have hinner : 0 < innerSize s a :=
    prodl_pos _ (fun d hd => hpos d (List.mem_of_mem_drop hd))
  have htot : prodl s = outerSize s a * (axisExtent s a * innerSize s a) := total_eq s a ha
  obtain ⟨tf, ti, out2, heq, h1, h2⟩ :=
    exec_scan (outerSize s a) (innerSize s a) (axisExtent s a)
      ⟨inp, fun off => if off < prodl s then (0 : V) else out0 off, 0, 0⟩
  dsimp only at h1 h2
  have hbestlt : ∀ i' k', i' < outerSize s a → k' < innerSize s a →
      bestOff inp (innerSize s a) (axisExtent s a) i' k' < prodl s := by
    intro i' k' hi' hk'
    rw [htot]
    exact flatOff_lt _ _ _ _ _ _ hi'
      (firstArgmax_lt _ _ hcnt) hk'
  have hout : hardmaxRunFrom s (a : Int) inp out0 = out2 := by
    unfold hardmaxRunFrom
    rw [hardmaxBuild_valid .float32 s a ha]
    simp only [runStmts, List.foldl_cons, List.foldl_nil]
    rw [exec_zeroFill]
    have hst : ({ (⟨inp, out0, 0, 0⟩ : EState) with
        out := fun off => if off < prodl s then (0 : V)
          else (⟨inp, out0, 0, 0⟩ : EState).out off })
        = (⟨inp, fun off => if off < prodl s then (0 : V) else out0 off, 0, 0⟩ : EState) := rfl
    rw [hst, heq]
  constructor
  · intro i hi k hk j hj
    rw [hout]
    by_cases hjm : j = firstArgmax
        (fun j' => inp (flatOff (innerSize s a) (axisExtent s a) i j' k)) (axisExtent s a)
    · rw [if_pos hjm, hjm]
      exact h1 i hi k hk
    · rw [if_neg hjm]
      have hoff : ∀ i' < outerSize s a, ∀ k' < innerSize s a,
          flatOff (innerSize s a) (axisExtent s a) i j k
            ≠ bestOff inp (innerSize s a) (axisExtent s a) i' k' := by
        intro i' hi' k' hk' hcontra
        have hfa' : firstArgmax
            (fun j' => inp (flatOff (innerSize s a) (axisExtent s a) i' j' k'))
            (axisExtent s a) < axisExtent s a := firstArgmax_lt _ _ hcnt
        obtain ⟨hii, hjj, hkk⟩ := flatOff_inj (innerSize s a) (axisExtent s a) hinner
          i j k i' _ k' hj hk hfa' hk' hcontra
        subst hii; subst hkk
        exact hjm hjj
      rw [h2 _ hoff]
      rw [if_pos]
      rw [htot]
      exact flatOff_lt _ _ _ _ _ _ hi hj hk
  · intro off hoffge
    rw [hout]
    have hoff : ∀ i' < outerSize s a, ∀ k' < innerSize s a,
        off ≠ bestOff inp (innerSize s a) (axisExtent s a) i' k' := by
      intro i' hi' k' hk' hcontra
      have := hbestlt i' k' hi' hk'
      omega
    rw [h2 _ hoff]
    rw [if_neg (by omega : ¬ off < prodl s)]

/-! ### Claim theorems -/

theorem axisExtent_pos (s : List Nat) (a : Nat) (ha : a < s.length)
    (hpos : ∀ d ∈ s, 0 < d) : 0 < axisExtent s a := by
  rw [axisExtent_eq_getElem s a ha]
  exact hpos _ (List.getElem_mem ha)

theorem innerSize_pos (s : List Nat) (a : Nat) (hpos : ∀ d ∈ s, 0 < d) :
    0 < innerSize s a :=
  prodl_pos _ (fun d hd => hpos d (List.mem_of_mem_drop hd))

/-- Summing a one-hot list gives exactly `1`. -/
theorem sum_indicator (n m : Nat) (hm : m < n) :
    ((List.range n).map (fun j => if j = m then (1 : V) else 0)).sum = 1 := by
  induction n with
  | zero => omega
  | succ p ih =>
    rw [List.range_succ, List.map_append, List.sum_append]
    simp only [List.map_cons, List.map_nil, List.sum_cons, List.sum_nil]
    rcases Nat.lt_succ_iff_lt_or_eq.mp hm with h | h
    · rw [ih h, if_neg (by omega : ¬ (p = m))]
      simp
    · subst h
      rw [if_pos rfl]
      have hz : ((List.range m).map (fun j => if j = m then (1 : V) else 0)).sum = 0 := by
        apply List.sum_eq_zero
        intro x hx
        rw [List.mem_map] at hx
        obtain ⟨j, hj, hxe⟩ := hx
        rw [List.mem_range] at hj
        rw [← hxe, if_neg (by omega)]
      rw [hz]
      simp

/-- **C1.** For every shape, valid axis and input, the output produced by
executing the statement tree built by hardmax has, for every outer/inner
index pair, exactly one `1.0` along the axis, placed at the lowest index
attaining the maximum input value along that axis, `0.0` everywhere else,
and the values along the axis sum to exactly `1.0`. -/
theorem hardmax_one_hot_lowest_max (s : List Nat) (a : Nat) (inp out0 : Nat → V)
    (ha : a < s.length) (hpos : ∀ d ∈ s, 0 < d)
    (i k : Nat) (hi : i < outerSize s a) (hk : k < innerSize s a) :
    ∃ m, isLowestMaxIdx
        (fun j => inp (flatOff (innerSize s a) (axisExtent s a) i j k)) (axisExtent s a) m
      ∧ hardmaxRunFrom s (a : Int) inp out0
          (flatOff (innerSize s a) (axisExtent s a) i m k) = 1
      ∧ (∀ j < axisExtent s a, j ≠ m →
          hardmaxRunFrom s (a : Int) inp out0
            (flatOff (innerSize s a) (axisExtent s a) i j k) = 0)
      ∧ ((List.range (axisExtent s a)).map
          (fun j => hardmaxRunFrom s (a : Int) inp out0
            (flatOff (innerSize s a) (axisExtent s a) i j k))).sum = 1 := by
  have hcnt := axisExtent_pos s a ha hpos
  obtain ⟨hchar, -⟩ := hardmaxRunFrom_char s a inp out0 ha hpos
  refine ⟨firstArgmax (fun j => inp (flatOff (innerSize s a) (axisExtent s a) i j k))
      (axisExtent s a),
    firstArgmax_isLowestMaxIdx _ _ hcnt, ?_, ?_, ?_⟩
  · have h := hchar i hi k hk
      (firstArgmax (fun j' => inp (flatOff (innerSize s a) (axisExtent s a) i j' k))
        (axisExtent s a))
      (firstArgmax_lt _ _ hcnt)
    rwa [if_pos rfl] at h
  · intro j hj hne
    have h := hchar i hi k hk j hj
    rwa [if_neg hne] at h
  · have hmap : (List.range (axisExtent s a)).map
        (fun j => hardmaxRunFrom s (a : Int) inp out0
          (flatOff (innerSize s a) (axisExtent s a) i j k))
        = (List.range (axisExtent s a)).map
          (fun j => if j = firstArgmax
              (fun j' => inp (flatOff (innerSize s a) (axisExtent s a) i j' k))
              (axisExtent s a)
            then (1 : V) else 0) := by
      apply List.map_congr_left
      intro j hj
      exact hchar i hi k hk j (List.mem_range.mp hj)
    rw [hmap]
    exact sum_indicator _ _ (firstArgmax_lt _ _ hcnt)

/-- Witness for C1 at the spec's example: shape `(2,3)`, axis `1`, input
`[[1,5,3],[9,2,2]]`. -/
theorem hardmax_one_hot_lowest_max_witness :
    (1 < ([2, 3] : List Nat).length ∧ ∀ d ∈ ([2, 3] : List Nat), 0 < d)
    ∧ ∃ m, isLowestMaxIdx
        (fun j => exInp (flatOff (innerSize [2, 3] 1) (axisExtent [2, 3] 1) 0 j 0))
        (axisExtent [2, 3] 1) m
      ∧ hardmaxRunFrom [2, 3] ((1 : Nat) : Int) exInp (fun _ => 0)
          (flatOff (innerSize [2, 3] 1) (axisExtent [2, 3] 1) 0 m 0) = 1
      ∧ (∀ j < axisExtent [2, 3] 1, j ≠ m →
          hardmaxRunFrom [2, 3] ((1 : Nat) : Int) exInp (fun _ => 0)
            (flatOff (innerSize [2, 3] 1) (axisExtent [2, 3] 1) 0 j 0) = 0)
      ∧ ((List.range (axisExtent [2, 3] 1)).map
          (fun j => hardmaxRunFrom [2, 3] ((1 : Nat) : Int) exInp (fun _ => 0)
            (flatOff (innerSize [2, 3] 1) (axisExtent [2, 3] 1) 0 j 0))).sum = 1 :=
  ⟨⟨by decide, by decide⟩,
    hardmax_one_hot_lowest_max [2, 3] 1 exInp (fun _ => 0) (by decide) (by decide)
      0 0 (by decide) (by decide)⟩

/-- The spec's example evaluated outright: `[[1,5,3],[9,2,2]]` with shape
`(2,3)` and axis `1` yields `[[0,1,0],[1,0,0]]`. -/
theorem hardmax_example_values :
    hardmaxRun [2, 3] 1 exInp 0 = 0 ∧ hardmaxRun [2, 3] 1 exInp 1 = 1
    ∧ hardmaxRun [2, 3] 1 exInp 2 = 0 ∧ hardmaxRun [2, 3] 1 exInp 3 = 1
    ∧ hardmaxRun [2, 3] 1 exInp 4 = 0 ∧ hardmaxRun [2, 3] 1 exInp 5 = 0 := by
  decide

/-- The spec's tie-break example: `[[4,4,1]]`, axis `1`, gives
`[[1,0,0]]` — the first maximum wins. -/
theorem hardmax_tiebreak_values :
    hardmaxRun [1, 3] 1 (fun n => (([4, 4, 1] : List ℚ).getD n 0 : ℚ)) 0 = 1
    ∧ hardmaxRun [1, 3] 1 (fun n => (([4, 4, 1] : List ℚ).getD n 0 : ℚ)) 1 = 0
    ∧ hardmaxRun [1, 3] 1 (fun n => (([4, 4, 1] : List ℚ).getD n 0 : ℚ)) 2 = 0 := by
  decide

/-- **C7.** When the axis extent is `1`, the executed kernel makes the
whole output tensor `1.0`. -/
theorem hardmax_axis_extent_one_all_ones (s : List Nat) (a : Nat) (inp : Nat → V)
    (ha : a < s.length) (hpos : ∀ d ∈ s, 0 < d) (hone : axisExtent s a = 1) :
    ∀ off < prodl s, hardmaxRun s (a : Int) inp off = 1 := by
  intro off hoff
  obtain ⟨hchar, -⟩ := hardmaxRunFrom_char s a inp (fun _ => 0) ha hpos
  have hcnt : 0 < axisExtent s a := by omega
  have hinner := innerSize_pos s a hpos
  obtain ⟨i, j, k, hi, hj, hk, hoffe⟩ := flatOff_surj (innerSize s a) (axisExtent s a)
    (outerSize s a) hinner hcnt off (by rw [← total_eq s a ha]; exact hoff)
  have hj0 : j = 0 := by omega
  subst hj0
  have hfa : firstArgmax
      (fun j' => inp (flatOff (innerSize s a) (axisExtent s a) i j' k))
      (axisExtent s a) = 0 := by
    have := firstArgmax_lt
      (fun j' => inp (flatOff (innerSize s a) (axisExtent s a) i j' k))
      (axisExtent s a) hcnt
    omega
  have h := hchar i hi k hk 0 hcnt
  rw [hfa, if_pos rfl] at h
  rw [hoffe]
  exact h

/-- Witness for C7: shape `(2,1)`, axis `1`. -/
theorem hardmax_axis_extent_one_all_ones_witness :
    hardmaxRun [2, 1] ((1 : Nat) : Int) exInp 0 = 1
    ∧ hardmaxRun [2, 1] ((1 : Nat) : Int) exInp 1 = 1 := by
  have h := hardmax_axis_extent_one_all_ones [2, 1] 1 exInp (by decide) (by decide) (by decide)
  exact ⟨h 0 (by decide), h 1 (by decide)⟩

/-- **C8.** Idempotence: running the built kernel on its own output
reproduces that output exactly. -/
theorem hardmax_idempotent (s : List Nat) (a : Nat) (inp : Nat → V)
    (ha : a < s.length) (hpos : ∀ d ∈ s, 0 < d) :
    hardmaxRun s (a : Int) (hardmaxRun s (a : Int) inp) = hardmaxRun s (a : Int) inp := by
  have hcnt := axisExtent_pos s a ha hpos
  have hinner := innerSize_pos s a hpos
  have h01 : (0 : V) ≤ 1 := by decide
  have h01lt : (0 : V) < 1 := by decide
  obtain ⟨hchar1, hrest1⟩ := hardmaxRunFrom_char s a inp (fun _ => 0) ha hpos
  obtain ⟨hchar2, hrest2⟩ :=
    hardmaxRunFrom_char s a (hardmaxRun s (a : Int) inp) (fun _ => 0) ha hpos
  funext off
  show hardmaxRunFrom s (a : Int) (hardmaxRun s (a : Int) inp) (fun _ => 0) off
    = hardmaxRunFrom s (a : Int) inp (fun _ => 0) off
  by_cases hoff : off < prodl s
  · obtain ⟨i, j, k, hi, hj, hk, hoffe⟩ := flatOff_surj (innerSize s a) (axisExtent s a)
      (outerSize s a) hinner hcnt off (by rw [← total_eq s a ha]; exact hoff)
    subst hoffe
    have hmlt : firstArgmax
        (fun j' => inp (flatOff (innerSize s a) (axisExtent s a) i j' k))
        (axisExtent s a) < axisExtent s a := firstArgmax_lt _ _ hcnt
    have hylow : isLowestMaxIdx
        (fun j' => hardmaxRun s (a : Int) inp
          (flatOff (innerSize s a) (axisExtent s a) i j' k))
        (axisExtent s a)
        (firstArgmax
          (fun j' => inp (flatOff (innerSize s a) (axisExtent s a) i j' k))
          (axisExtent s a)) := by
      refine ⟨hmlt, ?_, ?_⟩
      · intro j' hj'
        have h1 := hchar1 i hi k hk j' hj'
        have h2 := hchar1 i hi k hk _ hmlt
        rw [if_pos rfl] at h2
        show hardmaxRunFrom s (a : Int) inp (fun _ => 0) _
          ≤ hardmaxRunFrom s (a : Int) inp (fun _ => 0) _
        rw [h1, h2]
        by_cases he : j' = firstArgmax
            (fun j'' => inp (flatOff (innerSize s a) (axisExtent s a) i j'' k))
            (axisExtent s a)
        · rw [if_pos he]
        · rw [if_neg he]; exact h01
      · intro j' hj'm
        have hj'lt : j' < axisExtent s a := lt_trans hj'm hmlt
        have h1 := hchar1 i hi k hk j' hj'lt
        have h2 := hchar1 i hi k hk _ hmlt
        rw [if_pos rfl] at h2
        show hardmaxRunFrom s (a : Int) inp (fun _ => 0) _
          < hardmaxRunFrom s (a : Int) inp (fun _ => 0) _
        rw [h1, h2, if_neg (by omega : ¬ j' = firstArgmax
          (fun j'' => inp (flatOff (innerSize s a) (axisExtent s a) i j'' k))
          (axisExtent s a))]
        exact h01lt
    have hfy : firstArgmax
        (fun j' => hardmaxRun s (a : Int) inp
          (flatOff (innerSize s a) (axisExtent s a) i j' k))
        (axisExtent s a)
        = firstArgmax
          (fun j' => inp (flatOff (innerSize s a) (axisExtent s a) i j' k))
          (axisExtent s a) :=
      isLowestMaxIdx_unique _ _ _ _ (firstArgmax_isLowestMaxIdx _ _ hcnt) hylow
    have hz := hchar2 i hi k hk j hj
    rw [hfy] at hz
    have hy := hchar1 i hi k hk j hj
    rw [hz]
    exact hy.symm
  · have h1 := hrest1 off (by omega)
    have h2 := hrest2 off (by omega)
    rw [h1, h2]

/-- Witness for C8 at the spec's example input. -/
theorem hardmax_idempotent_witness :
    hardmaxRun [2, 3] ((1 : Nat) : Int) (hardmaxRun [2, 3] ((1 : Nat) : Int) exInp)
      = hardmaxRun [2, 3] ((1 : Nat) : Int) exInp :=
  hardmax_idempotent [2, 3] 1 exInp (by decide) (by decide)

/-- The all-negative-infinity input used as a boundary witness. -/
def inpBot : Nat → V := fun _ => ⊥

/-- **C10.** For every outer/inner pair: the stored best-offset
initializer evaluates to the flat offset of `j = 0`, and the executed
kernel sets exactly one in-bounds element per axis group to `1.0` — for
every input, including inputs where no element compares strictly greater
than negative infinity. -/
theorem hardmax_best_offset_init (s : List Nat) (a : Nat) (inp out0 : Nat → V)
    (ha : a < s.length) (hpos : ∀ d ∈ s, 0 < d)
    (i k : Nat) (hi : i < outerSize s a) (hk : k < innerSize s a) :
    (∀ st : EState, evalI (initExprK (innerSize s a) (axisExtent s a)) [k, i] st
        = flatOff (innerSize s a) (axisExtent s a) i 0 k)
    ∧ ∃ j < axisExtent s a,
        flatOff (innerSize s a) (axisExtent s a) i j k < prodl s
        ∧ hardmaxRunFrom s (a : Int) inp out0
            (flatOff (innerSize s a) (axisExtent s a) i j k) = 1
        ∧ ∀ j' < axisExtent s a, j' ≠ j →
            hardmaxRunFrom s (a : Int) inp out0
              (flatOff (innerSize s a) (axisExtent s a) i j' k) = 0 := by
  have hcnt := axisExtent_pos s a ha hpos
  constructor
  · intro st
    simp [initExprK, evalI, flatOff]
  · obtain ⟨hchar, -⟩ := hardmaxRunFrom_char s a inp out0 ha hpos
    refine ⟨firstArgmax
        (fun j' => inp (flatOff (innerSize s a) (axisExtent s a) i j' k))
        (axisExtent s a),
      firstArgmax_lt _ _ hcnt, ?_, ?_, ?_⟩
    · rw [total_eq s a ha]
      exact flatOff_lt _ _ _ _ _ _ hi (firstArgmax_lt _ _ hcnt) hk
    · have h := hchar i hi k hk
        (firstArgmax (fun j' => inp (flatOff (innerSize s a) (axisExtent s a) i j' k))
          (axisExtent s a))
        (firstArgmax_lt _ _ hcnt)
      rwa [if_pos rfl] at h
    · intro j' hj' hne
      have h := hchar i hi k hk j' hj'
      rwa [if_neg hne] at h

/-- Witness for C10 on an input that is negative infinity everywhere
(shape `(2,2)`, axis `0`): still exactly one `1.0` per group. -/
theorem hardmax_best_offset_init_witness :
    ∃ j < axisExtent [2, 2] 0,
      hardmaxRunFrom [2, 2] ((0 : Nat) : Int) inpBot (fun _ => 0)
        (flatOff (innerSize [2, 2] 0) (axisExtent [2, 2] 0) 0 j 0) = 1 := by
  obtain ⟨-, j, hj, -, h1, -⟩ := hardmax_best_offset_init [2, 2] 0 inpBot (fun _ => 0)
    (by decide) (by decide) 0 0 (by decide) (by decide)
  exact ⟨j, hj, h1⟩

/-- **C5.** The scan phase of the built kernel iterates `i` over
`[0, outer_size)`, `k` over `[0, inner_size)` and `j` over
`[0, axis_extent)` where `outer_size`/`inner_size` are the products of
the dimensions before/after the axis and `axis_extent = S[a]`; it
compares each element strictly (`>`) against a running best initialized
to negative infinity, reading and recording elements at the flat offset
`i*inner_size*axis_extent + j*inner_size + k`. -/
theorem hardmax_scan_structure (dtype : DType) (s : List Nat) (a : Nat) (ha : a < s.length) :
    (hardmaxBuild dtype s (a : Int)).stmts =
      [zeroFill (prodl s),
        Stmt.forRange (outerSize s a) (.forRange (innerSize s a)
          (.seq (.storeF (.lit ⊥))
            (.seq (.storeI (.add (.mul (.mul (.var 1) (.lit (innerSize s a)))
                (.lit (axisExtent s a))) (.var 0)))
              (.seq (.forRange (axisExtent s a)
                (.ifGt (.loadBuf 0 (.add (.add (.mul (.mul (.var 2) (.lit (innerSize s a)))
                      (.lit (axisExtent s a))) (.mul (.var 0) (.lit (innerSize s a))))
                    (.var 1)))
                  .loadF
                  (.seq (.storeI (.add (.add (.mul (.mul (.var 2) (.lit (innerSize s a)))
                        (.lit (axisExtent s a))) (.mul (.var 0) (.lit (innerSize s a))))
                      (.var 1)))
                    (.storeF (.loadBuf 0 (.add (.add (.mul (.mul (.var 2)
                          (.lit (innerSize s a))) (.lit (axisExtent s a)))
                        (.mul (.var 0) (.lit (innerSize s a)))) (.var 1)))))))
                (.storeBuf 1 .loadI (.lit 1))))))]
    ∧ ∀ (i j k : Nat) (st : EState),
        evalI (idxExprJ (innerSize s a) (axisExtent s a)) [j, k, i] st
          = i * innerSize s a * axisExtent s a + j * innerSize s a + k := by
  constructor
  · rw [hardmaxBuild_valid dtype s a ha]
    rfl
  · intro i j k st
    simp [idxExprJ, evalI]

/-- Witness for C5: shape `(2,3)`, axis `1`. -/
theorem hardmax_scan_structure_witness :
    (hardmaxBuild DType.float32 [2, 3] ((1 : Nat) : Int)).stmts
      = [zeroFill (prodl [2, 3]),
          scanStmt (outerSize [2, 3] 1) (innerSize [2, 3] 1) (axisExtent [2, 3] 1)] := by
  rw [(hardmax_scan_structure DType.float32 [2, 3] 1 (by decide)).1]
  rfl

/-- **C6.** The first statement emitted is a single flat loop storing
`0.0` into every one of the `outer_size * inner_size * axis_extent`
output elements, and it precedes the scan loops. -/
theorem hardmax_zero_fill_first (dtype : DType) (s : List Nat) (a : Nat) (ha : a < s.length) :
    ∃ scan, (hardmaxBuild dtype s (a : Int)).stmts =
        [Stmt.forRange (outerSize s a * innerSize s a * axisExtent s a)
          (.storeBuf 1 (.var 0) (.lit 0)), scan]
      ∧ ∀ (inp out0 : Nat → V),
          (execStmt (Stmt.forRange (outerSize s a * innerSize s a * axisExtent s a)
            (.storeBuf 1 (.var 0) (.lit 0))) [] ⟨inp, out0, 0, 0⟩).out
          = fun off => if off < outerSize s a * innerSize s a * axisExtent s a
              then 0 else out0 off := by
  have he : outerSize s a * innerSize s a * axisExtent s a = prodl s := by
    rw [total_eq s a ha]; ring
  refine ⟨scanStmt (outerSize s a) (innerSize s a) (axisExtent s a), ?_, ?_⟩
  · rw [hardmaxBuild_valid dtype s a ha, he]
    rfl
  · intro inp out0
    exact congrArg EState.out
      (exec_zeroFill (outerSize s a * innerSize s a * axisExtent s a) ⟨inp, out0, 0, 0⟩)

/-- Witness for C6: shape `(2,3)`, axis `1`. -/
theorem hardmax_zero_fill_first_witness :
    (hardmaxBuild DType.float32 [2, 3] ((1 : Nat) : Int)).stmts.head? =
      some (Stmt.forRange (outerSize [2, 3] 1 * innerSize [2, 3] 1 * axisExtent [2, 3] 1)
        (.storeBuf 1 (.var 0) (.lit 0))) := by
  obtain ⟨scan, hs, -⟩ := hardmax_zero_fill_first DType.float32 [2, 3] 1 (by decide)
  rw [hs]
  rfl

/-- **C9.** For every input element type, the built kernel allocates its
running-best-value scratch as `float32` and its best-offset scratch as
`int32`, each of extent `1`, independently of the input tensor's dtype
(which both buffer views carry). -/
theorem hardmax_scratch_dtypes (dtype : DType) (s : List Nat) (axis : Int) :
    (hardmaxBuild dtype s axis).allocs = [⟨DType.float32, 1⟩, ⟨DType.int32, 1⟩]
    ∧ (hardmaxBuild dtype s axis).bufDtypes = [dtype, dtype] := by
  simp only [hardmaxBuild]
  cases hpy : pyIndex s (if axis = -1 then (s.length : Int) - 1 else axis) <;>
    simp [hpy]

/-- Witness for C9 with a non-float32 input dtype. -/
theorem hardmax_scratch_dtypes_witness :
    (hardmaxBuild DType.float16 [2, 3] 1).allocs
      = [⟨DType.float32, 1⟩, ⟨DType.int32, 1⟩] :=
  (hardmax_scratch_dtypes DType.float16 [2, 3] 1).1

/-- **C2 counterexample.** Axis `-2` on the rank-2 shape `[2,3]` is *not*
normalized by adding the rank: the kernel built for axis `-2` differs
from the kernel built for axis `-2 + 2 = 0` (the source only rewrites the
literal `-1`; for `-2` it computes `inner_size` over *all* dimensions and
picks `cnt` by Python negative indexing). -/
theorem hardmax_negative_axis_cex :
    hardmaxBuild DType.float32 [2, 3] (-2) ≠ hardmaxBuild DType.float32 [2, 3] (-2 + 2) := by
  decide

/-- **C2 (amended).** Only the literal axis `-1` is normalized: the
kernel built for axis `-1` coincides with the kernel built for axis
`rank - 1`; other negative axes are passed through unnormalized. -/
theorem hardmax_axis_neg_one_norm (dtype : DType) (s : List Nat) :
    hardmaxBuild dtype s (-1) = hardmaxBuild dtype s ((s.length : Int) - 1) := by
  have h1 : (if (-1 : Int) = -1 then (s.length : Int) - 1 else -1) = (s.length : Int) - 1 :=
    if_pos rfl
  have h2 : (if ((s.length : Int) - 1) = -1 then (s.length : Int) - 1
      else (s.length : Int) - 1) = (s.length : Int) - 1 := ite_self _
  simp only [hardmaxBuild, h1, h2, if_true, eq_self_iff_true]

/-- Witness for the amended C2 on the rank-2 shape `[2,3]`. -/
theorem hardmax_axis_neg_one_norm_witness :
    hardmaxBuild DType.float32 [2, 3] (-1)
      = hardmaxBuild DType.float32 [2, 3] ((([2, 3] : List Nat).length : Int) - 1) :=
  hardmax_axis_neg_one_norm DType.float32 [2, 3]

/-- **C3 counterexample.** Axis `5` on the rank-2 shape `[2,3]`: the
build does abort, but with the plain index error from `shape[axis]`, and
only *after* the zero-fill statement (flat loop over all 6 elements) was
already emitted — not before any statement is built, and not with a
dedicated `AxisOutOfRange` error. -/
theorem hardmax_axis_out_of_range_cex :
    (hardmaxBuild DType.float32 [2, 3] 5).err = some BuildError.indexOutOfRange
    ∧ (hardmaxBuild DType.float32 [2, 3] 5).stmts
        = [Stmt.forRange 6 (.storeBuf 1 (.var 0) (.lit 0))] := by
  decide

/-- **C3 (amended).** For any axis whose normalized value falls outside
Python's tuple-index range, `_hardmax` fails at construction with the
untyped index error from `shape[axis]` — but only after the zero-fill
statement has already been emitted. -/
theorem hardmax_axis_out_of_range_behavior (dtype : DType) (s : List Nat) (axis : Int)
    (hax : axis < -(s.length : Int) ∨ (s.length : Int) ≤ axis) :
    hardmaxBuild dtype s axis =
      ⟨[dtype, dtype], [⟨DType.float32, 1⟩, ⟨DType.int32, 1⟩],
        [zeroFill (prodl s)], some BuildError.indexOutOfRange⟩ := by
  have hpy : pyIndex s (if axis = -1 then (s.length : Int) - 1 else axis) = none := by
    by_cases hm1 : axis = -1
    · subst hm1
      rw [if_pos rfl]
      have hlen : s.length = 0 := by omega
      have hs : s = [] := List.length_eq_zero.mp hlen
      subst hs
      decide
    · rw [if_neg hm1]
      unfold pyIndex
      split_ifs with h1 h2 h3
      · exfalso; omega
      · rfl
      · exfalso; omega
      · rfl
  simp only [hardmaxBuild, hpy]

/-- Witness for the amended C3: axis `5` on shape `[2,3]`. -/
theorem hardmax_axis_out_of_range_behavior_witness :
    hardmaxBuild DType.float32 [2, 3] 5 =
      ⟨[DType.float32, DType.float32], [⟨DType.float32, 1⟩, ⟨DType.int32, 1⟩],
        [zeroFill (prodl [2, 3])], some BuildError.indexOutOfRange⟩ :=
  hardmax_axis_out_of_range_behavior DType.float32 [2, 3] 5 (Or.inr (by decide))

/-- **C4 counterexample.** A shape with a `0` dimension does *not* fail:
`hardmax` on shape `[0,3]` with axis `1` builds the complete
two-statement tree without any error (there is no `InvalidShape`
check anywhere in the source). -/
theorem hardmax_zero_dim_cex :
    (hardmaxBuild DType.float32 [0, 3] 1).err = none
    ∧ (hardmaxBuild DType.float32 [0, 3] 1).stmts.length = 2 := by
  decide

/-- **C4 (amended).** The construction performs no shape validation:
even when the shape contains a non-positive (zero) dimension,
construction succeeds for every in-range axis and yields the complete
two-statement tree. -/
theorem hardmax_no_shape_validation (dtype : DType) (s : List Nat) (a : Nat)
    (_hzero : 0 ∈ s) (ha : a < s.length) :
    (hardmaxBuild dtype s (a : Int)).err = none
    ∧ (hardmaxBuild dtype s (a : Int)).stmts.length = 2 := by
  rw [hardmaxBuild_valid dtype s a ha]
  exact ⟨rfl, rfl⟩

/-- Witness for the amended C4: shape `[0,3]`, axis `1`. -/
theorem hardmax_no_shape_validation_witness :
    (hardmaxBuild DType.float32 [0, 3] ((1 : Nat) : Int)).err = none
    ∧ (hardmaxBuild DType.float32 [0, 3] ((1 : Nat) : Int)).stmts.length = 2 :=
  hardmax_no_shape_validation DType.float32 [0, 3] 1 (by decide) (by decide)
